import Mathlib

/-!
Shallow embedding of the recipe-composition and shopping-cart subsystem of
the foodgram backend (`backend/recipes/models.py`, `backend/api/serializers.py`,
`backend/api/views.py`).

Tables are lists of rows; machine integers of the serializers are modelled
as `Int` (Django `IntegerField` values), persisted amounts keep their `Int`
value with the `PositiveSmallIntegerField` bounds `1 ≤ a ≤ 32767` enforced
by `RecipeIngredient.save`, which calls `full_clean` before the insert.
-/

namespace Foodgram

/-- A row of the `Ingredients` table (`recipes/models.py`): primary key,
name, measurement unit. -/
structure Ingredient where
  id : Nat
  name : String
  measurement_unit : String
deriving DecidableEq, Repr

/-- A row of the `Tags` table, reduced to the fields the serializer
touches: primary key and name. -/
structure Tag where
  id : Nat
  name : String
deriving DecidableEq, Repr

/-- A row of the `Recipes` table (author FK, scalar fields; `pub_date`
and the image file contents are irrelevant to the claims, the image is
kept as its stored path string). -/
structure Recipe where
  id : Nat
  author : Nat
  name : String
  image : String
  text : String
  cooking_time : Int
deriving DecidableEq, Repr

/-- A row of the `RecipeIngredient` through table: recipe FK,
ingredient FK, amount. -/
structure RecipeIngredient where
  recipe : Nat
  ingredient : Nat
  amount : Int
deriving DecidableEq, Repr

/-- The persisted state: the tables the claims are about.  `recipesTags`
holds the `RecipesTags` through rows as (recipe id, tag id) pairs;
`shoppingCart` holds the `ShoppingCart.recipe` m2m rows as
(user id, recipe id) pairs. -/
structure DB where
  ingredients : List Ingredient
  tags : List Tag
  recipes : List Recipe
  recipeIngredient : List RecipeIngredient
  recipesTags : List (Nat × Nat)
  shoppingCart : List (Nat × Nat)
deriving DecidableEq, Repr

/-- One entry of the `ingredients` list of a recipe submission
(`IngredientsEditSerializer`): ingredient primary key and amount, both
plain integer fields. -/
structure IngredientLine where
  id : Nat
  amount : Int
deriving DecidableEq, Repr

/-- A recipe submission as `RecipeWriteSerializer` receives it.
`ingredients` and `tags` are the two list fields; the scalar fields are
optional because a PATCH request may omit them (`update` only touches
the keys present in `validated_data`). -/
structure Submission where
  ingredients : List IngredientLine
  tags : List Nat
  name : Option String
  image : Option String
  text : Option String
  cooking_time : Option Int
deriving DecidableEq, Repr

/-- The distinct rejection causes of the write pipeline. `http404` is the
`get_object_or_404` failure inside `validate`; the others are
`ValidationError`s. -/
inductive Err where
  | tagPkMissing
  | emptyIngredients
  | amountTooSmall
  | cookingTimeTooSmall
  | http404
  | repeatIngredient
  | emptyTags
  | tagNameMissing
  | missingField
deriving DecidableEq, Repr

/-! ## Validation (`RecipeWriteSerializer`) -/

/-- `validate_cooking_time`: rejects when `int(cooking_time) < 1`. -/
def validate_cooking_time (cooking_time : Int) : Option Err :=
  if cooking_time < 1 then some Err.cookingTimeTooSmall else none

/-- The loop of `validate_ingredients`: the first line with
`int(ingredient.get("amount")) < 1` raises `INGREDIENT_AMOUNT_ERROR`. -/
def first_amount_error : List IngredientLine → Option Err
  | [] => none
  | l :: rest =>
      if l.amount < 1 then some Err.amountTooSmall else first_amount_error rest

/-- `validate_ingredients`: an empty list raises `INGREDIENT_ADD_ERROR`,
otherwise every line's amount is checked against `< 1`. -/
def validate_ingredients (ingredients : List IngredientLine) : Option Err :=
  if ingredients = [] then some Err.emptyIngredients
  else first_amount_error ingredients

/-- `tags` is a `PrimaryKeyRelatedField(many=True)`: each submitted pk
must exist in the `Tags` table, otherwise field validation fails. -/
def tags_pk_check (db : DB) : List Nat → Option Err
  | [] => none
  | t :: rest =>
      if db.tags.any (fun tg => tg.id == t) then tags_pk_check db rest
      else some Err.tagPkMissing

/-- The duplicate-detection loop of `validate`: each line's ingredient is
fetched with `get_object_or_404` (404 when the pk is absent); a fetched
ingredient already seen (Django model equality = same pk) raises
`REPEAT_INGREDIENT_ERROR`, otherwise it is appended to `ingredient_list`. -/
def check_repeat (db : DB) (seen : List Ingredient) :
    List IngredientLine → Option Err
  | [] => none
  | l :: rest =>
      match db.ingredients.find? (fun i => i.id == l.id) with
      | none => some Err.http404
      | some ing =>
          if seen.any (fun s => s.id == ing.id) then some Err.repeatIngredient
          else check_repeat db (seen ++ [ing]) rest

/-- The tag loop of `validate`: for each tag object, a `Tags` row with
that name must exist (the tag was resolved by pk at field stage, so the
lookup by pk is re-done here to obtain its name). -/
def check_tag_names (db : DB) : List Nat → Option Err
  | [] => none
  | t :: rest =>
      match db.tags.find? (fun tg => tg.id == t) with
      | none => some Err.tagNameMissing
      | some tg =>
          if db.tags.any (fun x => x.name == tg.name) then check_tag_names db rest
          else some Err.tagNameMissing

/-- The object-level `validate` method: duplicate-ingredient scan, then
`if not tags: raise`, then the tag-name existence loop. -/
def validate (db : DB) (sub : Submission) : Option Err :=
  match check_repeat db [] sub.ingredients with
  | some e => some e
  | none =>
      if sub.tags = [] then some Err.emptyTags
      else check_tag_names db sub.tags

/-- The full `is_valid` pipeline: field-stage checks (tag pk resolution,
`validate_ingredients`, `validate_cooking_time` when the field is
present), then the object-level `validate`. Any stage failing rejects the
submission before `save` is called. -/
def run_validators (db : DB) (sub : Submission) : Option Err :=
  match tags_pk_check db sub.tags with
  | some e => some e
  | none =>
      match validate_ingredients sub.ingredients with
      | some e => some e
      | none =>
          match sub.cooking_time.bind validate_cooking_time with
          | some e => some e
          | none => validate db sub

/-! ## Persistence (`create` / `update` of `RecipeWriteSerializer`) -/

/-- `create_ingredients`: inserts one `RecipeIngredient` row per line, in
order.  `RecipeIngredient.save` calls `full_clean`, which enforces the
`PositiveSmallIntegerField` bounds (`MinValueValidator(1)`, max 32767)
and the `unique ingredient` constraint on (recipe, ingredient); a failing
`full_clean` raises, aborting the loop with the earlier rows kept. The
Bool records whether the loop ran to completion. -/
def create_ingredients (rows : List RecipeIngredient) (rid : Nat) :
    List IngredientLine → List RecipeIngredient × Bool
  | [] => (rows, true)
  | l :: rest =>
      if 1 ≤ l.amount ∧ l.amount ≤ 32767 ∧
          (∀ ri ∈ rows, ¬(ri.recipe = rid ∧ ri.ingredient = l.id)) then
        create_ingredients
          (rows ++ [{ recipe := rid, ingredient := l.id, amount := l.amount }])
          rid rest
      else (rows, false)

/-- The fresh primary key the database hands to `Recipes.objects.create`:
one more than the largest existing recipe id. -/
def next_recipe_id (db : DB) : Nat :=
  (db.recipes.map (fun r => r.id)).foldr max 0 + 1

/-- `RecipeWriteSerializer.create` after validation passed: the recipe row
is created, `recipe.tags.set(tags)` links the distinct submitted tags,
then `create_ingredients` inserts the lines (an aborted line loop leaves
the recipe and tag links persisted — there is no transaction). -/
def do_create (db : DB) (author : Nat) (sub : Submission) : DB :=
  let rid := next_recipe_id db
  { db with
    recipes := db.recipes ++
      [{ id := rid, author := author, name := sub.name.getD "",
         image := sub.image.getD "", text := sub.text.getD "",
         cooking_time := sub.cooking_time.getD 0 }],
    recipesTags := db.recipesTags ++ sub.tags.dedup.map (fun t => (rid, t)),
    recipeIngredient := (create_ingredients db.recipeIngredient rid sub.ingredients).1 }

/-- The POST /recipes/ flow: the serializer requires every writable field
to be present, runs `is_valid(raise_exception=True)`, and only then
`save` → `create`. A failed validation leaves the state untouched. -/
def create (db : DB) (author : Nat) (sub : Submission) : DB :=
  if sub.name = none ∨ sub.image = none ∨ sub.text = none ∨
      sub.cooking_time = none then db
  else
    match run_validators db sub with
    | some _ => db
    | none => do_create db author sub

/-- `RecipeWriteSerializer.update` after validation passed:
`instance.ingredients.clear()` deletes the instance's through rows, then
`create_ingredients` re-inserts the submitted lines; only when that loop
completes do `tags.set` and `super().update` run (`setattr` for each
remaining key of `validated_data`, so omitted scalar fields keep their
values). -/
def do_update (db : DB) (rid : Nat) (sub : Submission) : DB :=
  if (create_ingredients (db.recipeIngredient.filter (fun ri => ri.recipe ≠ rid))
      rid sub.ingredients).2 then
    { db with
      recipeIngredient :=
        (create_ingredients (db.recipeIngredient.filter (fun ri => ri.recipe ≠ rid))
          rid sub.ingredients).1,
      recipesTags := db.recipesTags.filter (fun p => p.1 ≠ rid) ++
        sub.tags.dedup.map (fun t => (rid, t)),
      recipes := db.recipes.map (fun r =>
        if r.id = rid then
          { r with name := sub.name.getD r.name,
                   image := sub.image.getD r.image,
                   text := sub.text.getD r.text,
                   cooking_time := sub.cooking_time.getD r.cooking_time }
        else r) }
  else
    { db with
      recipeIngredient :=
        (create_ingredients (db.recipeIngredient.filter (fun ri => ri.recipe ≠ rid))
          rid sub.ingredients).1 }

/-- The PATCH/PUT /recipes/pk/ flow: 404 when the recipe does not exist,
then `is_valid(raise_exception=True)` (the `validate` method reads
`data["ingredients"]` and `data["tags"]`, so both lists are required),
then `save` → `update`. -/
def update (db : DB) (rid : Nat) (sub : Submission) : DB :=
  if db.recipes.any (fun r => r.id == rid) then
    match run_validators db sub with
    | some _ => db
    | none => do_update db rid sub
  else db

/-! ## Shopping cart (`AddDeleteShoppingCart`, `ShoppingCart` m2m) -/

/-- `request.user.shopping_cart.recipe.add(instance)`: the auto-created
m2m through table is unique on (user, recipe), and `add` skips pairs that
already exist. -/
def cart_add (db : DB) (u r : Nat) : DB :=
  if (u, r) ∈ db.shoppingCart then db
  else { db with shoppingCart := db.shoppingCart ++ [(u, r)] }

/-- `request.user.shopping_cart.recipe.remove(instance)`. -/
def cart_remove (db : DB) (u r : Nat) : DB :=
  { db with shoppingCart := db.shoppingCart.filter (fun p => p ≠ (u, r)) }

/-! ## Shopping-list download (`RecipesViewSet.download_shopping_cart`) -/

/-- The recipes of a user's cart, in insertion order. -/
def cart_recipes (db : DB) (u : Nat) : List Nat :=
  db.shoppingCart.filterMap (fun p => if p.1 = u then some p.2 else none)

/-- One ungrouped row of the SQL join: ingredient name, measurement unit,
amount.  (`values("ingredients__name", "ingredients__measurement_unit")`
with `Sum("recipe__amount")` joins each cart recipe with its
`RecipeIngredient` rows and the `Ingredients` table.) -/
structure CartRow where
  name : String
  measurement_unit : String
  amount : Int
deriving DecidableEq, Repr

/-- Resolve one `RecipeIngredient` row against the `Ingredients` table
(an inner join: unresolvable FKs produce no row). -/
def resolve_row (db : DB) (ri : RecipeIngredient) : Option CartRow :=
  match db.ingredients.find? (fun i => i.id == ri.ingredient) with
  | some i => some { name := i.name, measurement_unit := i.measurement_unit,
                     amount := ri.amount }
  | none => none

/-- The join rows contributed by one recipe. -/
def recipe_rows (db : DB) (r : Nat) : List CartRow :=
  (db.recipeIngredient.filter (fun ri => ri.recipe == r)).filterMap (resolve_row db)

/-- All join rows of a user's cart. -/
def join_rows (db : DB) (u : Nat) : List CartRow :=
  (cart_recipes db u).flatMap (recipe_rows db)

/-- The grouping key of the aggregation: (name, measurement unit). -/
def key_of (r : CartRow) : String × String := (r.name, r.measurement_unit)

/-- Fold one join row into the grouped accumulator: an existing group
with the same key absorbs the amount, a new key is appended. -/
def insert_row (acc : List ((String × String) × Int)) (r : CartRow) :
    List ((String × String) × Int) :=
  match acc with
  | [] => [(key_of r, r.amount)]
  | (k, s) :: rest =>
      if k = key_of r then (k, s + r.amount) :: rest
      else (k, s) :: insert_row rest r

/-- SQL `GROUP BY name, measurement_unit` with `SUM(amount)`: every
distinct key yields one output group whose value is the sum of the
amounts of its rows. -/
def group_sum (rows : List CartRow) : List ((String × String) × Int) :=
  rows.foldl insert_row []

/-- The queryset of `download_shopping_cart`: the grouped, summed
purchase lines of the user's cart. -/
def shopping_cart_rows (db : DB) (u : Nat) : List ((String × String) × Int) :=
  group_sum (join_rows db u)

/-- The amount the grouped line for key `k` should carry: the sum of the
amounts of the join rows with that key. -/
def sum_for (k : String × String) : List CartRow → Int
  | [] => 0
  | r :: rest => (if key_of r = k then r.amount else 0) + sum_for k rest

/-- Lookup of a grouped line by key. -/
def lookup_key (k : String × String) : List ((String × String) × Int) → Option Int
  | [] => none
  | (k2, s) :: rest => if k2 = k then some s else lookup_key k rest

/-- The numbered text lines `"{index}. {name} - {amount} {unit}."`. -/
def render_lines (start : Nat) : List ((String × String) × Int) → List String
  | [] => []
  | (k, a) :: rest =>
      (toString start ++ ". " ++ k.1 ++ " - " ++ toString a ++ " " ++ k.2 ++ ".")
        :: render_lines (start + 1) rest

/-- The response body of `download_shopping_cart`: a header plus the
numbered purchase lines when the queryset is non-empty, the empty-cart
message otherwise. -/
def download_shopping_cart (db : DB) (u : Nat) : String :=
  let rows := shopping_cart_rows db u
  if rows = [] then "Список покупок пуст"
  else String.intercalate "\n" ("Ваш список покупок:" :: render_lines 1 rows)

/-! ## Reachable states -/

/-- The states reachable through the write API: from a loaded ingredient
and tag catalogue (recipes start empty), by recipe creation, recipe
update, and cart add/remove. -/
inductive Reachable : DB → Prop where
  | init (ings : List Ingredient) (tgs : List Tag) :
      Reachable { ingredients := ings, tags := tgs, recipes := [],
                  recipeIngredient := [], recipesTags := [], shoppingCart := [] }
  | step_create {db : DB} (author : Nat) (sub : Submission) :
      Reachable db → Reachable (create db author sub)
  | step_update {db : DB} (rid : Nat) (sub : Submission) :
      Reachable db → Reachable (update db rid sub)
  | step_cart_add {db : DB} (u r : Nat) :
      Reachable db → Reachable (cart_add db u r)
  | step_cart_remove {db : DB} (u r : Nat) :
      Reachable db → Reachable (cart_remove db u r)

/-! ## Lemmas about the validators -/

theorem first_amount_error_none_iff (ls : List IngredientLine) :
    first_amount_error ls = none ↔ ∀ l ∈ ls, 1 ≤ l.amount := by
  induction ls with
  | nil => simp [first_amount_error]
  | cons l rest ih =>
      unfold first_amount_error
      by_cases h : l.amount < 1
      · rw [if_pos h]
        simp only [List.mem_cons]
        constructor
        · intro hc
          exact absurd hc (by simp)
        · intro hall
          have := hall l (Or.inl rfl)
          omega
      · rw [if_neg h, ih]
        constructor
        · intro hall l2 hl2
          rcases List.mem_cons.mp hl2 with rfl | hm
          · omega
          · exact hall l2 hm
        · intro hall l2 hl2
          exact hall l2 (List.mem_cons_of_mem _ hl2)

theorem validate_ingredients_none_iff (ls : List IngredientLine) :
    validate_ingredients ls = none ↔ ls ≠ [] ∧ ∀ l ∈ ls, 1 ≤ l.amount := by
  by_cases h : ls = []
  · simp [validate_ingredients, h]
  · simp [validate_ingredients, h, first_amount_error_none_iff]

theorem run_validators_none_validate {db : DB} {sub : Submission}
    (h : run_validators db sub = none) : validate db sub = none := by
  unfold run_validators at h
  split at h
  · exact absurd h (by simp)
  · split at h
    · exact absurd h (by simp)
    · split at h
      · exact absurd h (by simp)
      · exact h

theorem run_validators_none_ingredients {db : DB} {sub : Submission}
    (h : run_validators db sub = none) :
    validate_ingredients sub.ingredients = none := by
  unfold run_validators at h
  split at h
  · exact absurd h (by simp)
  · split at h
    · exact absurd h (by simp)
    · rename_i heq
      exact heq

theorem validate_none_check_repeat {db : DB} {sub : Submission}
    (h : validate db sub = none) : check_repeat db [] sub.ingredients = none := by
  unfold validate at h
  split at h
  · exact absurd h (by simp)
  · rename_i heq
    exact heq

theorem validate_none_tags_ne_nil {db : DB} {sub : Submission}
    (h : validate db sub = none) : sub.tags ≠ [] := by
  unfold validate at h
  split at h
  · exact absurd h (by simp)
  · intro htags
    rw [if_pos htags] at h
    exact absurd h (by simp)

/-- A successful duplicate scan means: every line's pk resolves, the pks
are pairwise distinct, and none of them was already seen. -/
theorem check_repeat_none_nodup (db : DB) :
    ∀ (ls : List IngredientLine) (seen : List Ingredient),
      check_repeat db seen ls = none →
      (ls.map (fun l => l.id)).Nodup ∧
        ∀ l ∈ ls, ∀ s ∈ seen, s.id ≠ l.id := by
  intro ls
  induction ls with
  | nil => intro seen _; simp
  | cons l rest ih =>
      intro seen h
      unfold check_repeat at h
      split at h
      · exact absurd h (by simp)
      · rename_i ing hf
        have hid : ing.id = l.id := by
          have := List.find?_some hf
          simpa using this
        split at h
        · exact absurd h (by simp)
        · rename_i hs
          obtain ⟨hnodup, hseen⟩ := ih (seen ++ [ing]) h
          refine ⟨?_, ?_⟩
          · simp only [List.map_cons, List.nodup_cons]
            refine ⟨?_, hnodup⟩
            intro hmem
            simp only [List.mem_map] at hmem
            obtain ⟨l2, hl2, hl2id⟩ := hmem
            have := hseen l2 hl2 ing (by simp)
            rw [hid] at this
            exact this hl2id.symm
          · intro l2 hl2 s hsm
            rcases List.mem_cons.mp hl2 with rfl | hl2r
            · intro heq
              apply hs
              simp only [List.any_eq_true]
              exact ⟨s, hsm, by simp [hid, heq]⟩
            · exact hseen l2 hl2r s (List.mem_append_left _ hsm)

/-! ## Helper lemmas about create / update on failed validation -/

theorem create_of_validators_some {db : DB} {sub : Submission} {e : Err}
    (author : Nat) (h : run_validators db sub = some e) :
    create db author sub = db := by
  unfold create
  split
  · rfl
  · rw [h]

theorem update_of_validators_some {db : DB} {sub : Submission} {e : Err}
    (rid : Nat) (h : run_validators db sub = some e) :
    update db rid sub = db := by
  unfold update
  split
  · rw [h]
  · rfl

/-! ## Claim theorems: validation -/

/-- C4: `validate_ingredients` rejects a submission iff the ingredient
list is empty or some line's amount is less than 1; a non-empty list with
every amount at least 1 passes the check. -/
theorem C4_validate_ingredients_iff (ls : List IngredientLine) :
    ((validate_ingredients ls).isSome ↔ ls = [] ∨ ∃ l ∈ ls, l.amount < 1) ∧
      (ls ≠ [] → (∀ l ∈ ls, 1 ≤ l.amount) → validate_ingredients ls = none) := by
  constructor
  · constructor
    · intro h
      by_contra hc
      push_neg at hc
      have hnone : validate_ingredients ls = none :=
        (validate_ingredients_none_iff ls).mpr
          ⟨hc.1, fun l hl => by have := hc.2 l hl; omega⟩
      rw [hnone] at h
      exact absurd h (by simp)
    · intro h
      by_contra hns
      have hnone : validate_ingredients ls = none :=
        Option.not_isSome_iff_eq_none.mp hns
      obtain ⟨hne, hall⟩ := (validate_ingredients_none_iff ls).mp hnone
      rcases h with h | ⟨l, hl, hlt⟩
      · exact hne h
      · have := hall l hl
        omega
  · intro h1 h2
    exact (validate_ingredients_none_iff ls).mpr ⟨h1, h2⟩

/-- C5: a submission with an empty tag list is rejected by validation
(the `validate` method raises on `if not tags`), so neither creation nor
update persists anything: the state is unchanged. -/
theorem C5_empty_tags_rejected (db : DB) (author rid : Nat) (sub : Submission)
    (htags : sub.tags = []) :
    (run_validators db sub).isSome ∧
      create db author sub = db ∧ update db rid sub = db := by
  have hsome : (run_validators db sub).isSome := by
    cases h : run_validators db sub with
    | none =>
        have := validate_none_tags_ne_nil (run_validators_none_validate h)
        exact absurd htags this
    | some e => simp
  obtain ⟨e, he⟩ := Option.isSome_iff_exists.mp hsome
  exact ⟨hsome, create_of_validators_some author he,
    update_of_validators_some rid he⟩

/-- C3: a submission whose ingredient list mentions the same ingredient
pk more than once is rejected by validation (the duplicate scan of
`validate` raises `REPEAT_INGREDIENT_ERROR`, unless an earlier check
already rejected), and neither creation nor update persists anything. -/
theorem C3_duplicate_ingredient_rejected (db : DB) (author rid : Nat)
    (sub : Submission) (hdup : ¬ (sub.ingredients.map (fun l => l.id)).Nodup) :
    (run_validators db sub).isSome ∧
      create db author sub = db ∧ update db rid sub = db := by
  have hsome : (run_validators db sub).isSome := by
    cases h : run_validators db sub with
    | none =>
        have hcr := validate_none_check_repeat (run_validators_none_validate h)
        have := (check_repeat_none_nodup db sub.ingredients [] hcr).1
        exact absurd this hdup
    | some e => simp
  obtain ⟨e, he⟩ := Option.isSome_iff_exists.mp hsome
  exact ⟨hsome, create_of_validators_some author he,
    update_of_validators_some rid he⟩

/-- C6: recipe creation is atomic with respect to validation — when the
validation pipeline fails, `save`/`create` never runs and the persisted
state (recipes, ingredient lines, tag links) is exactly unchanged. -/
theorem C6_create_atomic_on_invalid (db : DB) (author : Nat)
    (sub : Submission) (e : Err) (h : run_validators db sub = some e) :
    create db author sub = db :=
  create_of_validators_some author h

/-! ## The persisted-lines invariant (C7) -/

/-- The invariant of the `RecipeIngredient` table: every line's amount is
at least 1 and no two lines share a (recipe, ingredient) pair. -/
def lines_invariant (db : DB) : Prop :=
  (∀ ri ∈ db.recipeIngredient, 1 ≤ ri.amount) ∧
    db.recipeIngredient.Pairwise
      (fun a b => ¬(a.recipe = b.recipe ∧ a.ingredient = b.ingredient))

theorem create_ingredients_preserves (rid : Nat) :
    ∀ (ls : List IngredientLine) (rows : List RecipeIngredient),
      (∀ ri ∈ rows, 1 ≤ ri.amount) →
      rows.Pairwise (fun a b => ¬(a.recipe = b.recipe ∧ a.ingredient = b.ingredient)) →
      (∀ ri ∈ (create_ingredients rows rid ls).1, 1 ≤ ri.amount) ∧
        (create_ingredients rows rid ls).1.Pairwise
          (fun a b => ¬(a.recipe = b.recipe ∧ a.ingredient = b.ingredient)) := by
  intro ls
  induction ls with
  | nil =>
      intro rows h1 h2
      simp only [create_ingredients]
      exact ⟨h1, h2⟩
  | cons l rest ih =>
      intro rows h1 h2
      unfold create_ingredients
      split
      · rename_i hcond
        apply ih
        · intro ri hri
          rcases List.mem_append.mp hri with hri | hri
          · exact h1 ri hri
          · have : ri = { recipe := rid, ingredient := l.id, amount := l.amount } := by
              simpa using hri
            rw [this]
            exact hcond.1
        · rw [List.pairwise_append]
          refine ⟨h2, by simp, ?_⟩
          intro a ha b hb
          have hb2 : b = { recipe := rid, ingredient := l.id, amount := l.amount } := by
            simpa using hb
          rw [hb2]
          intro hc
          exact hcond.2.2 a ha ⟨hc.1, hc.2⟩
      · exact ⟨h1, h2⟩

theorem lines_invariant_create (db : DB) (author : Nat) (sub : Submission)
    (h : lines_invariant db) : lines_invariant (create db author sub) := by
  unfold create
  split
  · exact h
  · split
    · exact h
    · unfold lines_invariant do_create
      exact create_ingredients_preserves _ _ _ h.1 h.2

theorem lines_invariant_update (db : DB) (rid : Nat) (sub : Submission)
    (h : lines_invariant db) : lines_invariant (update db rid sub) := by
  have hcleared :
      (∀ ri ∈ db.recipeIngredient.filter (fun ri => ri.recipe ≠ rid), 1 ≤ ri.amount) ∧
        (db.recipeIngredient.filter (fun ri => ri.recipe ≠ rid)).Pairwise
          (fun a b => ¬(a.recipe = b.recipe ∧ a.ingredient = b.ingredient)) := by
    constructor
    · intro ri hri
      exact h.1 ri (List.mem_of_mem_filter hri)
    · exact h.2.sublist (List.filter_sublist _)
  unfold update
  split
  · split
    · exact h
    · unfold lines_invariant do_update
      split
      · exact create_ingredients_preserves _ _ _ hcleared.1 hcleared.2
      · exact create_ingredients_preserves _ _ _ hcleared.1 hcleared.2
  · exact h

theorem lines_invariant_cart_add (db : DB) (u r : Nat)
    (h : lines_invariant db) : lines_invariant (cart_add db u r) := by
  unfold lines_invariant cart_add
  split
  · exact h
  · exact h

theorem lines_invariant_cart_remove (db : DB) (u r : Nat)
    (h : lines_invariant db) : lines_invariant (cart_remove db u r) := h

theorem reachable_lines_invariant (db : DB) (h : Reachable db) :
    lines_invariant db := by
  induction h with
  | init ings tgs => exact ⟨by simp, by simp⟩
  | step_create author sub _ ih => exact lines_invariant_create _ author sub ih
  | step_update rid sub _ ih => exact lines_invariant_update _ rid sub ih
  | step_cart_add u r _ ih => exact lines_invariant_cart_add _ u r ih
  | step_cart_remove u r _ ih => exact lines_invariant_cart_remove _ u r ih

/-- C7: in every reachable persisted state each ingredient line's amount
is at least 1 and no two lines share a (recipe, ingredient) pair, and
both recipe creation and recipe update preserve the invariant. -/
theorem C7_reachable_lines_invariant (db : DB) (h : Reachable db) :
    lines_invariant db ∧
      (∀ author sub, lines_invariant (create db author sub)) ∧
      (∀ rid sub, lines_invariant (update db rid sub)) := by
  have hinv := reachable_lines_invariant db h
  exact ⟨hinv, fun author sub => lines_invariant_create db author sub hinv,
    fun rid sub => lines_invariant_update db rid sub hinv⟩

/-- The initial state with an empty catalogue. -/
def emptyDB : DB :=
  { ingredients := [],
    tags := [],
    recipes := [],
    recipeIngredient := [],
    recipesTags := [],
    shoppingCart := [] }

/-- Witness for C7 at the initial state. -/
theorem C7_witness : lines_invariant emptyDB :=
  (C7_reachable_lines_invariant _ (Reachable.init [] [])).1

/-! ## Cart idempotence (C8) and the empty-cart download (C9) -/

/-- C8: adding a recipe already in the cart is a no-op — the m2m `add`
skips existing (user, recipe) pairs — so the state, and with it the
downloaded shopping list, matches a single add. -/
theorem C8_cart_add_idempotent (db : DB) (u r : Nat) :
    cart_add (cart_add db u r) u r = cart_add db u r ∧
      download_shopping_cart (cart_add (cart_add db u r) u r) u =
        download_shopping_cart (cart_add db u r) u := by
  have h : cart_add (cart_add db u r) u r = cart_add db u r := by
    by_cases hm : (u, r) ∈ db.shoppingCart
    · simp [cart_add, hm]
    · simp [cart_add, hm]
  exact ⟨h, by rw [h]⟩

/-- C9: a user whose shopping cart holds no recipes gets the plain-text
body `"Список покупок пуст"` instead of a numbered purchase list. -/
theorem C9_empty_cart_message (db : DB) (u : Nat)
    (h : cart_recipes db u = []) :
    download_shopping_cart db u = "Список покупок пуст" := by
  unfold download_shopping_cart shopping_cart_rows join_rows
  rw [h]
  simp [group_sum]

/-! ## Concrete fixtures for the witnesses -/

/-- A small concrete state: two ingredients, one tag, two recipes with
three ingredient lines, both recipes in user 7's cart. -/
def wdb : DB :=
  { ingredients := [⟨1, "Сахар", "г"⟩, ⟨2, "Молоко", "мл"⟩],
    tags := [⟨1, "завтрак"⟩],
    recipes := [⟨1, 1, "Каша", "kasha.png", "варить", 10⟩,
                ⟨2, 1, "Чай", "tea.png", "заварить", 5⟩],
    recipeIngredient := [⟨1, 1, 30⟩, ⟨1, 2, 200⟩, ⟨2, 1, 10⟩],
    recipesTags := [(1, 1), (2, 1)],
    shoppingCart := [(7, 1), (7, 2)] }

/-- Witness for C9 on a state with an empty cart. -/
theorem C9_witness :
    download_shopping_cart emptyDB 1 = "Список покупок пуст" :=
  C9_empty_cart_message _ 1 rfl

/-- A submission with an empty tag list. -/
def subEmptyTags : Submission :=
  { ingredients := [⟨1, 5⟩],
    tags := [],
    name := some "n",
    image := some "i",
    text := some "t",
    cooking_time := some 10 }

/-- Witness for C5 on a submission with an empty tag list. -/
theorem C5_witness :
    (run_validators wdb subEmptyTags).isSome ∧
      create wdb 1 subEmptyTags = wdb ∧ update wdb 1 subEmptyTags = wdb :=
  C5_empty_tags_rejected wdb 1 1 subEmptyTags rfl

/-- A submission that repeats ingredient pk 1. -/
def subDupIngredient : Submission :=
  { ingredients := [⟨1, 5⟩, ⟨1, 7⟩],
    tags := [1],
    name := some "n",
    image := some "i",
    text := some "t",
    cooking_time := some 10 }

/-- Witness for C3 on a submission repeating ingredient pk 1. -/
theorem C3_witness :
    (run_validators wdb subDupIngredient).isSome ∧
      create wdb 1 subDupIngredient = wdb ∧ update wdb 1 subDupIngredient = wdb :=
  C3_duplicate_ingredient_rejected wdb 1 1 subDupIngredient (by decide)

/-- A submission with an empty ingredient list. -/
def subNoIngredients : Submission :=
  { ingredients := [],
    tags := [1],
    name := some "n",
    image := some "i",
    text := some "t",
    cooking_time := some 10 }

/-- Witness for C6 on a submission with an empty ingredient list. -/
theorem C6_witness : create wdb 1 subNoIngredients = wdb :=
  C6_create_atomic_on_invalid wdb 1 subNoIngredients Err.emptyIngredients rfl

/-! ## Aggregation lemmas (C1, C2) -/

theorem lookup_key_insert_row_ne (k : String × String) (r : CartRow)
    (h : key_of r ≠ k) :
    ∀ acc, lookup_key k (insert_row acc r) = lookup_key k acc := by
  intro acc
  induction acc with
  | nil =>
      unfold insert_row lookup_key
      rw [if_neg h]
      rfl
  | cons p rest ih =>
      obtain ⟨k2, s⟩ := p
      unfold insert_row
      by_cases h2 : k2 = key_of r
      · rw [if_pos h2]
        unfold lookup_key
        by_cases h3 : k2 = k
        · exact absurd (h2 ▸ h3) h
        · rw [if_neg h3, if_neg h3]
      · rw [if_neg h2]
        unfold lookup_key
        by_cases h3 : k2 = k
        · rw [if_pos h3, if_pos h3]
        · rw [if_neg h3, if_neg h3]
          exact ih

theorem lookup_key_insert_row_eq (r : CartRow) :
    ∀ acc, lookup_key (key_of r) (insert_row acc r) =
      some ((lookup_key (key_of r) acc).getD 0 + r.amount) := by
  intro acc
  induction acc with
  | nil =>
      unfold insert_row lookup_key
      rw [if_pos rfl]
      simp
  | cons p rest ih =>
      obtain ⟨k2, s⟩ := p
      unfold insert_row
      by_cases h2 : k2 = key_of r
      · rw [if_pos h2]
        unfold lookup_key
        rw [if_pos h2, if_pos h2]
        simp
      · rw [if_neg h2]
        unfold lookup_key
        rw [if_neg h2, if_neg h2]
        exact ih

theorem sum_for_cons (k : String × String) (r : CartRow) (rest : List CartRow) :
    sum_for k (r :: rest) = (if key_of r = k then r.amount else 0) + sum_for k rest :=
  rfl

theorem lookup_key_foldl_some (k : String × String) :
    ∀ (rows : List CartRow) (acc : List ((String × String) × Int)) (s : Int),
      lookup_key k acc = some s →
      lookup_key k (rows.foldl insert_row acc) = some (s + sum_for k rows) := by
  intro rows
  induction rows with
  | nil =>
      intro acc s h
      simpa [sum_for] using h
  | cons r rest ih =>
      intro acc s h
      rw [List.foldl_cons]
      by_cases hk : key_of r = k
      · have h2 : lookup_key k (insert_row acc r) = some (s + r.amount) := by
          rw [← hk] at h ⊢
          rw [lookup_key_insert_row_eq r acc, h]
          rfl
        rw [ih _ _ h2, sum_for_cons, if_pos hk]
        congr 1
        omega
      · have h2 : lookup_key k (insert_row acc r) = some s := by
          rw [lookup_key_insert_row_ne k r hk acc]
          exact h
        rw [ih _ _ h2, sum_for_cons, if_neg hk]
        congr 1
        omega

theorem lookup_key_foldl_mem (k : String × String) :
    ∀ (rows : List CartRow) (acc : List ((String × String) × Int)),
      lookup_key k acc = none → (∃ r ∈ rows, key_of r = k) →
      lookup_key k (rows.foldl insert_row acc) = some (sum_for k rows) := by
  intro rows
  induction rows with
  | nil =>
      intro acc _ hex
      exact absurd hex (by simp)
  | cons r rest ih =>
      intro acc hnone hex
      rw [List.foldl_cons]
      by_cases hk : key_of r = k
      · have h2 : lookup_key k (insert_row acc r) = some r.amount := by
          rw [← hk] at hnone ⊢
          rw [lookup_key_insert_row_eq r acc, hnone]
          simp
        rw [lookup_key_foldl_some k rest _ _ h2, sum_for_cons, if_pos hk]
      · have hnone2 : lookup_key k (insert_row acc r) = none := by
          rw [lookup_key_insert_row_ne k r hk acc]
          exact hnone
        obtain ⟨r2, hr2, hr2k⟩ := hex
        rcases List.mem_cons.mp hr2 with rfl | hr2m
        · exact absurd hr2k hk
        · rw [ih _ hnone2 ⟨r2, hr2m, hr2k⟩, sum_for_cons, if_neg hk]
          simp

theorem lookup_key_some_mem (k : String × String) (s : Int) :
    ∀ l, lookup_key k l = some s → (k, s) ∈ l := by
  intro l
  induction l with
  | nil => intro h; exact absurd h (by simp [lookup_key])
  | cons p rest ih =>
      obtain ⟨k2, s2⟩ := p
      intro h
      unfold lookup_key at h
      by_cases h2 : k2 = k
      · rw [if_pos h2] at h
        have : s2 = s := by simpa using h
        rw [← h2, ← this]
        exact List.mem_cons_self _ _
      · rw [if_neg h2] at h
        exact List.mem_cons_of_mem _ (ih h)

theorem mem_keys_insert_row (k : String × String) (r : CartRow) :
    ∀ acc, k ∈ (insert_row acc r).map Prod.fst ↔
      k ∈ acc.map Prod.fst ∨ k = key_of r := by
  intro acc
  induction acc with
  | nil => simp [insert_row, eq_comm]
  | cons p rest ih =>
      obtain ⟨k2, s⟩ := p
      unfold insert_row
      by_cases h2 : k2 = key_of r
      · rw [if_pos h2]
        subst h2
        simp only [List.map_cons, List.mem_cons]
        constructor
        · intro h
          rcases h with h | h
          · exact Or.inr h
          · exact Or.inl (Or.inr h)
        · intro h
          rcases h with (h | h) | h
          · exact Or.inl h
          · exact Or.inr h
          · exact Or.inl h
      · rw [if_neg h2]
        simp only [List.map_cons, List.mem_cons, ih]
        tauto

theorem nodup_keys_insert_row (r : CartRow) :
    ∀ acc, (acc.map Prod.fst).Nodup → ((insert_row acc r).map Prod.fst).Nodup := by
  intro acc
  induction acc with
  | nil =>
      intro _
      simp [insert_row]
  | cons p rest ih =>
      obtain ⟨k2, s⟩ := p
      intro h
      simp only [List.map_cons, List.nodup_cons] at h
      unfold insert_row
      by_cases h2 : k2 = key_of r
      · rw [if_pos h2]
        simp only [List.map_cons, List.nodup_cons]
        exact h
      · rw [if_neg h2]
        simp only [List.map_cons, List.nodup_cons]
        refine ⟨?_, ih h.2⟩
        rw [mem_keys_insert_row]
        intro hc
        rcases hc with hc | hc
        · exact h.1 hc
        · exact h2 hc

theorem nodup_keys_foldl :
    ∀ (rows : List CartRow) (acc : List ((String × String) × Int)),
      (acc.map Prod.fst).Nodup → ((rows.foldl insert_row acc).map Prod.fst).Nodup := by
  intro rows
  induction rows with
  | nil => intro acc h; exact h
  | cons r rest ih =>
      intro acc h
      rw [List.foldl_cons]
      exact ih _ (nodup_keys_insert_row r acc h)

theorem sum_for_append (k : String × String) (l1 l2 : List CartRow) :
    sum_for k (l1 ++ l2) = sum_for k l1 + sum_for k l2 := by
  induction l1 with
  | nil => simp [sum_for]
  | cons r rest ih =>
      rw [List.cons_append, sum_for_cons, sum_for_cons, ih]
      omega

theorem sum_for_flatMap (k : String × String) (f : Nat → List CartRow) :
    ∀ recs : List Nat,
      sum_for k (recs.flatMap f) = (recs.map (fun x => sum_for k (f x))).sum := by
  intro recs
  induction recs with
  | nil => simp [sum_for]
  | cons a rest ih =>
      rw [List.flatMap_cons, sum_for_append, ih, List.map_cons, List.sum_cons]

/-! ## Claim theorems: the downloaded shopping list (C1, C2) -/

/-- C2: the downloaded shopping list is deduplicated — each distinct
(ingredient name, measurement unit) key appears in at most one grouped
purchase line, because the `GROUP BY` fold merges rows sharing a key. -/
theorem C2_download_deduplicated (db : DB) (u : Nat) :
    ((shopping_cart_rows db u).map Prod.fst).Nodup := by
  unfold shopping_cart_rows group_sum
  exact nodup_keys_foldl _ [] (by simp)

/-- C1: for every (name, measurement unit) key occurring among the
ingredient lines of the cart's recipes, the downloaded shopping list has
a purchase line carrying the sum of the amounts of that key over the
whole cart, i.e. the sum over the cart's recipes of their per-recipe
sums. -/
theorem C1_download_aggregates_amounts (db : DB) (u : Nat)
    (k : String × String) (hk : ∃ r ∈ join_rows db u, key_of r = k) :
    (k, sum_for k (join_rows db u)) ∈ shopping_cart_rows db u ∧
      sum_for k (join_rows db u) =
        ((cart_recipes db u).map (fun x => sum_for k (recipe_rows db x))).sum := by
  constructor
  · apply lookup_key_some_mem
    unfold shopping_cart_rows group_sum
    exact lookup_key_foldl_mem k (join_rows db u) [] rfl hk
  · unfold join_rows
    exact sum_for_flatMap k (recipe_rows db) (cart_recipes db u)

/-- Witness for C1: user 7's cart holds recipes 1 and 2, both using
ingredient (Сахар, г) with amounts 30 and 10. -/
theorem C1_witness :
    (("Сахар", "г"), sum_for ("Сахар", "г") (join_rows wdb 7)) ∈
        shopping_cart_rows wdb 7 ∧
      sum_for ("Сахар", "г") (join_rows wdb 7) =
        ((cart_recipes wdb 7).map
          (fun x => sum_for ("Сахар", "г") (recipe_rows wdb x))).sum :=
  C1_download_aggregates_amounts wdb 7 ("Сахар", "г") (by decide)

/-! ## Update frame lemmas (C10) -/

/-- When every line is within bounds, the pks are distinct and none of
them collides with an existing row of the target recipe, the insertion
loop of `create_ingredients` runs to completion and appends exactly the
submitted lines. -/
theorem create_ingredients_complete (rid : Nat) :
    ∀ (ls : List IngredientLine) (rows : List RecipeIngredient),
      (∀ l ∈ ls, 1 ≤ l.amount ∧ l.amount ≤ 32767) →
      (ls.map (fun l => l.id)).Nodup →
      (∀ ri ∈ rows, ri.recipe = rid → ri.ingredient ∉ ls.map (fun l => l.id)) →
      create_ingredients rows rid ls =
        (rows ++ ls.map (fun l => ⟨rid, l.id, l.amount⟩), true) := by
  intro ls
  induction ls with
  | nil =>
      intro rows _ _ _
      simp [create_ingredients]
  | cons l rest ih =>
      intro rows hb hn hdisj
      unfold create_ingredients
      split
      · rename_i hcond
        have hd2 : ∀ ri ∈ rows ++ [{ recipe := rid, ingredient := l.id, amount := l.amount }],
            ri.recipe = rid → ri.ingredient ∉ List.map (fun l => l.id) rest := by
          intro ri hri hrec
          rcases List.mem_append.mp hri with hri | hri
          · intro hmemid
            exact hdisj ri hri hrec (List.mem_cons_of_mem _ hmemid)
          · have heq : ri = { recipe := rid, ingredient := l.id, amount := l.amount } := by
              simpa using hri
            rw [heq]
            exact (List.nodup_cons.mp hn).1
        have hrec := ih (rows ++ [{ recipe := rid, ingredient := l.id, amount := l.amount }])
          (fun l2 hl2 => hb l2 (List.mem_cons_of_mem _ hl2))
          ((List.nodup_cons.mp hn).2) hd2
        rw [hrec]
        simp
      · rename_i hcond
        exfalso
        apply hcond
        refine ⟨(hb l (List.mem_cons_self _ _)).1, (hb l (List.mem_cons_self _ _)).2, ?_⟩
        intro ri hri hc
        exact hdisj ri hri hc.1 (by simp [hc.2])

theorem filter_cleared_self (rows : List RecipeIngredient) (rid : Nat) :
    (rows.filter (fun ri => ri.recipe ≠ rid)).filter (fun ri => ri.recipe = rid) = [] := by
  induction rows with
  | nil => rfl
  | cons r rest ih =>
      by_cases h : r.recipe = rid
      · simp only [List.filter_cons]
        rw [if_neg (by simp [h])]
        exact ih
      · simp only [List.filter_cons]
        rw [if_pos (by simp [h])]
        simp only [List.filter_cons]
        rw [if_neg (by simp [h])]
        exact ih

theorem filter_cleared_other (rows : List RecipeIngredient) (rid r : Nat)
    (h : r ≠ rid) :
    (rows.filter (fun ri => ri.recipe ≠ rid)).filter (fun ri => ri.recipe = r) =
      rows.filter (fun ri => ri.recipe = r) := by
  induction rows with
  | nil => rfl
  | cons a rest ih =>
      by_cases h1 : a.recipe = rid
      · simp only [List.filter_cons]
        rw [if_neg (by simp [h1]), if_neg (by simp [h1]; omega)]
        exact ih
      · simp only [List.filter_cons]
        rw [if_pos (by simp [h1])]
        by_cases h2 : a.recipe = r
        · simp only [List.filter_cons]
          rw [if_pos (by simp [h2]), if_pos (by simp [h2])]
          rw [ih]
        · simp only [List.filter_cons]
          rw [if_neg (by simp [h2]), if_neg (by simp [h2])]
          exact ih

theorem filter_new_self (ls : List IngredientLine) (rid : Nat) :
    ((ls.map (fun l => (⟨rid, l.id, l.amount⟩ : RecipeIngredient))).filter
        (fun ri => ri.recipe = rid)) =
      ls.map (fun l => ⟨rid, l.id, l.amount⟩) := by
  induction ls with
  | nil => rfl
  | cons l rest ih =>
      simp only [List.map_cons, List.filter_cons]
      rw [if_pos (by simp)]
      rw [ih]

theorem filter_new_other (ls : List IngredientLine) (rid r : Nat) (h : r ≠ rid) :
    ((ls.map (fun l => (⟨rid, l.id, l.amount⟩ : RecipeIngredient))).filter
        (fun ri => ri.recipe = r)) = [] := by
  induction ls with
  | nil => rfl
  | cons l rest ih =>
      simp only [List.map_cons, List.filter_cons]
      rw [if_neg (by simp; omega)]
      exact ih

theorem recipes_map_frame (rs : List Recipe) (rid : Nat) (sub : Submission) :
    ((rs.map (fun r =>
        if r.id = rid then
          { r with name := sub.name.getD r.name,
                   image := sub.image.getD r.image,
                   text := sub.text.getD r.text,
                   cooking_time := sub.cooking_time.getD r.cooking_time }
        else r)).filter (fun r => ¬ r.id = rid)) =
      rs.filter (fun r => ¬ r.id = rid) := by
  induction rs with
  | nil => rfl
  | cons r rest ih =>
      by_cases h : r.id = rid
      · simp only [List.map_cons, List.filter_cons]
        rw [if_pos h]
        rw [if_neg (by simp [h]), if_neg (by simp [h])]
        exact ih
      · simp only [List.map_cons, List.filter_cons]
        rw [if_neg h]
        rw [if_pos (by simp [h]), if_pos (by simp [h])]
        rw [ih]

/-- C10: a successful update that supplies an ingredient list replaces
the recipe's ingredient lines with exactly the supplied ones, while the
lines of every other recipe, the rows of other recipes, the catalogue
and the carts are unchanged, and scalar fields omitted from the
submission keep their previous values. -/
theorem C10_update_frame (db : DB) (rid : Nat) (sub : Submission)
    (hmem : (db.recipes.any fun r => r.id == rid) = true)
    (hval : run_validators db sub = none)
    (hmax : ∀ l ∈ sub.ingredients, l.amount ≤ 32767) :
    ((update db rid sub).recipeIngredient.filter (fun ri => ri.recipe = rid) =
        sub.ingredients.map (fun l => ⟨rid, l.id, l.amount⟩)) ∧
      (∀ r : Nat, r ≠ rid →
        (update db rid sub).recipeIngredient.filter (fun ri => ri.recipe = r) =
          db.recipeIngredient.filter (fun ri => ri.recipe = r)) ∧
      ((update db rid sub).recipes.filter (fun r => ¬ r.id = rid) =
        db.recipes.filter (fun r => ¬ r.id = rid)) ∧
      (∀ old ∈ db.recipes, old.id = rid →
        ∃ cur ∈ (update db rid sub).recipes, cur.id = rid ∧
          (sub.name = none → cur.name = old.name) ∧
          (sub.image = none → cur.image = old.image) ∧
          (sub.text = none → cur.text = old.text) ∧
          (sub.cooking_time = none → cur.cooking_time = old.cooking_time)) ∧
      (update db rid sub).ingredients = db.ingredients ∧
      (update db rid sub).shoppingCart = db.shoppingCart := by
  have hamts : ∀ l ∈ sub.ingredients, 1 ≤ l.amount :=
    ((validate_ingredients_none_iff _).mp (run_validators_none_ingredients hval)).2
  have hnodup : (sub.ingredients.map (fun l => l.id)).Nodup :=
    (check_repeat_none_nodup db sub.ingredients []
      (validate_none_check_repeat (run_validators_none_validate hval))).1
  have hdisj : ∀ ri ∈ db.recipeIngredient.filter (fun ri => ri.recipe ≠ rid),
      ri.recipe = rid → ri.ingredient ∉ sub.ingredients.map (fun l => l.id) := by
    intro ri hri hrec
    have := (List.mem_filter.mp hri).2
    simp only [decide_eq_true_eq] at this
    exact absurd hrec this
  have hcomplete :
      create_ingredients (db.recipeIngredient.filter (fun ri => ri.recipe ≠ rid))
          rid sub.ingredients =
        (db.recipeIngredient.filter (fun ri => ri.recipe ≠ rid) ++
          sub.ingredients.map (fun l => ⟨rid, l.id, l.amount⟩), true) :=
    create_ingredients_complete rid sub.ingredients _
      (fun l hl => ⟨hamts l hl, hmax l hl⟩) hnodup hdisj
  have hstate : update db rid sub =
      { db with
        recipeIngredient :=
          db.recipeIngredient.filter (fun ri => ri.recipe ≠ rid) ++
            sub.ingredients.map (fun l => ⟨rid, l.id, l.amount⟩),
        recipesTags := db.recipesTags.filter (fun p => p.1 ≠ rid) ++
          sub.tags.dedup.map (fun t => (rid, t)),
        recipes := db.recipes.map (fun r =>
          if r.id = rid then
            { r with name := sub.name.getD r.name,
                     image := sub.image.getD r.image,
                     text := sub.text.getD r.text,
                     cooking_time := sub.cooking_time.getD r.cooking_time }
          else r) } := by
    unfold update
    rw [hval]
    rw [if_pos hmem]
    unfold do_update
    rw [hcomplete]
    simp
  refine ⟨?_, ?_, ?_, ?_, ?_, ?_⟩
  · rw [hstate]
    simp only
    rw [List.filter_append, filter_cleared_self, filter_new_self]
    rfl
  · intro r hr
    rw [hstate]
    simp only
    rw [List.filter_append, filter_cleared_other _ _ _ hr, filter_new_other _ _ _ hr]
    simp
  · rw [hstate]
    exact recipes_map_frame db.recipes rid sub
  · intro old hold holdid
    rw [hstate]
    simp only
    refine ⟨{ old with
        name := sub.name.getD old.name,
        image := sub.image.getD old.image,
        text := sub.text.getD old.text,
        cooking_time := sub.cooking_time.getD old.cooking_time }, ?_, ?_, ?_, ?_, ?_, ?_⟩
    · rw [List.mem_map]
      exact ⟨old, hold, by rw [if_pos holdid]⟩
    · exact holdid
    · intro hn
      rw [hn]
      rfl
    · intro hn
      rw [hn]
      rfl
    · intro hn
      rw [hn]
      rfl
    · intro hn
      rw [hn]
      rfl
  · rw [hstate]
  · rw [hstate]

/-- A partial update for recipe 1: new ingredient list and tags, new
name, other scalar fields omitted. -/
def subUpdate : Submission :=
  { ingredients := [⟨2, 500⟩],
    tags := [1],
    name := some "Новая каша",
    image := none,
    text := none,
    cooking_time := none }

/-- Witness for C10: updating recipe 1 of the fixture state. -/
theorem C10_witness :
    ((update wdb 1 subUpdate).recipeIngredient.filter (fun ri => ri.recipe = 1) =
        subUpdate.ingredients.map (fun l => ⟨1, l.id, l.amount⟩)) ∧
      (∀ r : Nat, r ≠ 1 →
        (update wdb 1 subUpdate).recipeIngredient.filter (fun ri => ri.recipe = r) =
          wdb.recipeIngredient.filter (fun ri => ri.recipe = r)) ∧
      ((update wdb 1 subUpdate).recipes.filter (fun r => ¬ r.id = 1) =
        wdb.recipes.filter (fun r => ¬ r.id = 1)) ∧
      (∀ old ∈ wdb.recipes, old.id = 1 →
        ∃ cur ∈ (update wdb 1 subUpdate).recipes, cur.id = 1 ∧
          (subUpdate.name = none → cur.name = old.name) ∧
          (subUpdate.image = none → cur.image = old.image) ∧
          (subUpdate.text = none → cur.text = old.text) ∧
          (subUpdate.cooking_time = none → cur.cooking_time = old.cooking_time)) ∧
      (update wdb 1 subUpdate).ingredients = wdb.ingredients ∧
      (update wdb 1 subUpdate).shoppingCart = wdb.shoppingCart :=
  C10_update_frame wdb 1 subUpdate (by decide) (by decide) (by decide)

end Foodgram
